import Mathlib

/-!
Verification of the NormScout rule-applicability engine.

Shallow embedding of:
  * `src/services/norm_matcher.py` — `check_norm_applies`, `match_norms`,
    `match_norms_streaming` (the applicability classifier and the evaluation
    orchestrator in its plain and streaming modes);
  * `src/api/openrouter.py`  — `call_openrouter` (the reasoning-service client);
  * `src/services/package_manager.py` — `PackageManager._is_package_accessible`,
    `get_user_packages`, `get_allowed_databases`, `track_usage`,
    `_get_package_for_database` (the entitlement resolver and usage recorder).

External effects (HTTP responses, thread-completion order, database rows,
raised exceptions of worker tasks) are passed in explicitly as values, so each
Python function becomes a total Lean function of its inputs plus its external
observations.
-/

namespace NormScout

/-! ## Python string primitives

Character-level models of the Python `str` operations the classifier uses.
Strings are handled through their character lists (`String.data`). -/

/-- The whitespace characters stripped by Python `str.strip()`:
space, tab, newline, carriage return, vertical tab, form feed. -/
def pyWhitespaceChar (c : Char) : Bool :=
  c = ' ' || c = '\t' || c = '\n' || c = '\r' || c = '\x0b' || c = '\x0c'

/-- Python `str.strip()` on a character list. -/
def stripChars (l : List Char) : List Char :=
  ((l.dropWhile pyWhitespaceChar).reverse.dropWhile pyWhitespaceChar).reverse

/-- Python `s.strip()`. -/
def pyStrip (s : String) : String := ⟨stripChars s.data⟩

/-- Python `s.lower()` (ASCII model). -/
def pyLower (s : String) : String := ⟨s.data.map Char.toLower⟩

/-- Python `s.upper()` (ASCII model). -/
def pyUpper (s : String) : String := ⟨s.data.map Char.toUpper⟩

/-- Substring occurrence on character lists: `needle` occurs somewhere in `hay`. -/
def containsSub (needle : List Char) : List Char → Bool
  | [] => needle.isEmpty
  | c :: t => needle.isPrefixOf (c :: t) || containsSub needle t

/-- Python `needle in hay` for strings. -/
def pyContains (needle hay : String) : Bool := containsSub needle.data hay.data

/-- Python `s.split("\n")` on character lists: always at least one part,
`[""]` for the empty string. -/
def splitOnNl : List Char → List (List Char)
  | [] => [[]]
  | c :: t =>
    if c = '\n' then [] :: splitOnNl t
    else
      match splitOnNl t with
      | [] => [[c]]
      | l :: ls => (c :: l) :: ls

/-- Python `s.split("\n")`. -/
def pyLines (s : String) : List String := (splitOnNl s.data).map (fun l => ⟨l⟩)

/-- Decimal value of a digit-character list (used after `filter(str.isdigit, ...)`,
so every character is `'0'..'9'`). -/
def digitsToNat (l : List Char) : Nat :=
  l.foldl (fun n c => n * 10 + (c.toNat - 48)) 0

/-- Python `int(''.join(filter(str.isdigit, line)))`:
`ValueError` (modeled as `none`) when `line` has no digit characters, otherwise
the decimal number written by the concatenation of all its digit characters. -/
def pyIntOfDigits (line : String) : Option Nat :=
  let ds := line.data.filter Char.isDigit
  if ds.isEmpty then none else some (digitsToNat ds)

/-- Python `line.split(":", 1)` on character lists: the part before the first
`':'`, and — when a `':'` exists — the remainder after it. -/
def splitOnceColon : List Char → List Char × Option (List Char)
  | [] => ([], none)
  | c :: t =>
    if c = ':' then ([], some t)
    else
      let p := splitOnceColon t
      (c :: p.1, p.2)

/-! ## Data model -/

/-- A rule record as read from a partition file (`norm` dict). Only the fields
`check_norm_applies` reads are modeled. `url` models `norm.get("url", "")`. -/
structure Norm where
  id : String
  name : String
  applies_to : String
  description : String
  url : String := ""
  deriving DecidableEq

/-- The result dict built by `check_norm_applies` (the `EvaluationResult`).
The failure branch of the Python code omits the `url` key; that is modeled as
`url = ""`. -/
structure NormResult where
  norm_id : String
  norm_name : String
  applies : Bool
  confidence : Int
  reasoning : String
  url : String := ""
  deriving DecidableEq

/-- Return value of `call_openrouter`: either
`{"success": True, "content": c}` or `{"success": False, "error": e}`. -/
inductive CallResult
  | ok (content : String)
  | err (error : String)
  deriving DecidableEq

/-! ## `call_openrouter` (src/api/openrouter.py) -/

/-- Outcome of the `requests.post` call to the reasoning service, as observed
by `call_openrouter`:
  * `response status content errorMessage` — an HTTP response; `content` is
    `choices[0].message.content` when the 200-response JSON has a nonempty
    `choices` array, `none` otherwise; `errorMessage` is the `error.message`
    field of a non-200 response body when that body parses as JSON with an
    `error` key, `none` otherwise;
  * `timeout` — `requests.exceptions.Timeout`;
  * `exn` — any other exception raised by the transport. -/
inductive HttpOutcome
  | response (status : Nat) (content : Option String) (errorMessage : Option String)
  | timeout
  | exn (message : String)
  deriving DecidableEq

/-- `call_openrouter` with the external HTTP outcome made explicit.
Every branch returns a `CallResult`; no branch raises. -/
def call_openrouter (apiKey : Option String) (outcome : HttpOutcome) : CallResult :=
  match apiKey with
  | Option.none => .err "OpenRouter API key not configured"
  | some _ =>
    match outcome with
    | .timeout => .err "Request timed out after 30 seconds"
    | .exn m => .err ("API call failed: " ++ m)
    | .response status content errorMessage =>
      if status = 200 then
        match content with
        | some c => .ok c
        | Option.none => .err "Unexpected API response structure"
      else
        match errorMessage with
        | some m => .err m
        | Option.none => .err ("API returned status " ++ toString status)

/-! ## `check_norm_applies` (src/services/norm_matcher.py, lines 57–139) -/

/-- Loop state of the response-parsing `for` loop in `check_norm_applies`. -/
structure ParseState where
  confidence : Int
  reasoning_started : Bool
  reasoning_parts : List String
  deriving DecidableEq

/-- Initial parse state: `confidence = 50  # default`, no reasoning seen. -/
def initParseState : ParseState :=
  { confidence := 50, reasoning_started := false, reasoning_parts := [] }

/-- First half of the loop body of `check_norm_applies`:

    if "CONFIDENCE:" in line.upper():
        try: confidence = int(''.join(filter(str.isdigit, line)))
        except: confidence = 50
-/
def confStep (st : ParseState) (line : String) : ParseState :=
  if pyContains "CONFIDENCE:" (pyUpper line) then
    match pyIntOfDigits line with
    | some n => { st with confidence := (n : Int) }
    | Option.none => { st with confidence := 50 }
  else st

/-- Second half of the loop body of `check_norm_applies`:

    if "REASONING:" in line.upper():
        parts = line.split(":", 1)
        if len(parts) > 1 and parts[1].strip():
            reasoning_parts.append(parts[1].strip())
        reasoning_started = True
    elif reasoning_started and line.strip():
        reasoning_parts.append(line.strip())
-/
def reasoningStep (st1 : ParseState) (line : String) : ParseState :=
  if pyContains "REASONING:" (pyUpper line) then
    match (splitOnceColon line.data).2 with
    | some rest =>
      let restStripped := pyStrip ⟨rest⟩
      { st1 with
        reasoning_started := true
        reasoning_parts :=
          if restStripped = "" then st1.reasoning_parts
          else st1.reasoning_parts ++ [restStripped] }
    | Option.none => { st1 with reasoning_started := true }
  else if st1.reasoning_started ∧ pyStrip line ≠ "" then
    { st1 with reasoning_parts := st1.reasoning_parts ++ [pyStrip line] }
  else st1

/-- One full iteration of the parsing loop of `check_norm_applies`: the
confidence block followed by the reasoning block. -/
def parseLine (st : ParseState) (line : String) : ParseState :=
  reasoningStep (confStep st line) line

/-- `check_norm_applies` with the outcome of its `call_openrouter` call made
explicit. On a failed call it returns the diagnostic non-applying result and
never raises; on success it parses the response text:
`applies` iff `"yes"` occurs in the lowercased first line, confidence and
reasoning from the line loop above, `reasoning = " ".join(reasoning_parts)`. -/
def check_norm_applies (result : CallResult) (norm : Norm) : NormResult :=
  match result with
  | .err e =>
    { norm_id := norm.id, norm_name := norm.name, applies := false,
      confidence := 0, reasoning := "Error: " ++ e, url := "" }
  | .ok content =>
    let lines := pyLines (pyStrip content)
    let applies :=
      match lines with
      | [] => false
      | l0 :: _ => pyContains "yes" (pyLower l0)
    let st := lines.foldl parseLine initParseState
    { norm_id := norm.id, norm_name := norm.name, applies := applies,
      confidence := st.confidence,
      reasoning := String.intercalate " " st.reasoning_parts,
      url := norm.url }

example :
    check_norm_applies
      (.ok "APPLIES: yes\nCONFIDENCE: 87\nREASONING: matches voltage threshold")
      { id := "N1", name := "Norm 1", applies_to := "a", description := "d" } =
    { norm_id := "N1", norm_name := "Norm 1", applies := true, confidence := 87,
      reasoning := "matches voltage threshold", url := "" } := by decide

/-! ## Evaluation orchestrator (src/services/norm_matcher.py, lines 142–256)

Both orchestrators submit one `check_norm_applies` task per norm to a thread
pool and consume the futures with `as_completed`. The external behavior of the
pool is modeled as the list of task outcomes **in completion order**: for each
future, either the `NormResult` it returned or the exception message
`future.result()` re-raises. -/

/-- One completed future, paired with the input norm id the orchestrator reads
from `future_to_norm` (`norm['id']`, used in progress reports). -/
structure TaskOutcome where
  norm_id : String
  outcome : Except String NormResult

/-- The events yielded by `match_norms_streaming`:
`('progress', completed, total, norm_id)` and
`('complete', matched_results, all_results)`. -/
inductive Event
  | progress (completed total : Nat) (norm_id : String)
  | complete (matched_results all_results : List NormResult)
  deriving DecidableEq

/-- Insert `x` into a confidence-descending list, after every element of
strictly greater confidence and before the first of smaller-or-equal
confidence. -/
def insertByConf (x : NormResult) : List NormResult → List NormResult
  | [] => [x]
  | y :: ys => if y.confidence ≤ x.confidence then x :: y :: ys else y :: insertByConf x ys

/-- Embeds `results.sort(key=lambda x: x["confidence"], reverse=True)`.
Python `list.sort` is a stable sort, so with `reverse=True` it produces the
unique list that is ordered by confidence non-increasing while keeping the
original relative order of equal-confidence elements; this right-fold
insertion sort is extensionally that list (permutation, sortedness and
stability are proved below). -/
def sortByConfDesc : List NormResult → List NormResult
  | [] => []
  | x :: xs => insertByConf x (sortByConfDesc xs)

/-- The collection loop of `match_norms` over the completed futures:
only results with `result["applies"]` are appended to `results`; a future
whose task raised is logged and appended nowhere; finally
`results.sort(key=..., reverse=True)`. (The optional `progress_callback` and
the log lines have no effect on the returned value and are not modeled.) -/
def matchLoop : List TaskOutcome → List NormResult → List NormResult
  | [], results => sortByConfDesc results
  | t :: rest, results =>
    match t.outcome with
    | .ok r => matchLoop rest (if r.applies then results ++ [r] else results)
    | .error _ => matchLoop rest results

/-- `match_norms`, plain (non-streaming) mode, over the task outcomes in
completion order. Returns only the applying results, sorted by confidence
descending. -/
def match_norms (tasks : List TaskOutcome) : List NormResult :=
  matchLoop tasks []

/-- The collection loop of `match_norms_streaming`: for each completed future,
`completed` is incremented and a progress event is yielded (also when the task
raised); a returned result is appended to `all_results` and, when it applies,
to `matched_results`; after the loop `matched_results` is sorted by confidence
descending and the single terminal complete event is yielded. -/
def streamLoop (total : Nat) :
    List TaskOutcome → Nat → List NormResult → List NormResult → List Event
  | [], _, matched, all => [.complete (sortByConfDesc matched) all]
  | t :: rest, completed, matched, all =>
    match t.outcome with
    | .ok r =>
      .progress (completed + 1) total t.norm_id ::
        streamLoop total rest (completed + 1)
          (if r.applies then matched ++ [r] else matched) (all ++ [r])
    | .error _ =>
      .progress (completed + 1) total t.norm_id ::
        streamLoop total rest (completed + 1) matched all

/-- `match_norms_streaming`, as the full sequence of yielded events, over the
task outcomes in completion order. -/
def match_norms_streaming (tasks : List TaskOutcome) : List Event :=
  streamLoop tasks.length tasks 0 [] []

/-! ### Specification-side views of the orchestrator -/

/-- The result of a task that completed without raising. -/
def okResult (t : TaskOutcome) : Option NormResult :=
  match t.outcome with
  | .ok r => some r
  | .error _ => Option.none

/-- The results collected in `all_results`: one per non-raising task, in
completion order. -/
def allResultsOf (tasks : List TaskOutcome) : List NormResult :=
  tasks.filterMap okResult

/-- The final `matched_results`: the applying results, stably sorted by
confidence descending. -/
def matchedOf (tasks : List TaskOutcome) : List NormResult :=
  sortByConfDesc ((allResultsOf tasks).filter (fun r => r.applies))

/-! ### Closed form of the two orchestrator loops -/

theorem matchLoop_eq (tasks : List TaskOutcome) :
    ∀ acc : List NormResult,
      matchLoop tasks acc =
        sortByConfDesc (acc ++ (allResultsOf tasks).filter (fun r => r.applies)) := by
  induction tasks with
  | nil => intro acc; simp [matchLoop, allResultsOf]
  | cons t rest ih =>
    intro acc
    match ht : t.outcome with
    | .ok r =>
      by_cases hr : r.applies <;>
        simp [matchLoop, ht, hr, ih, allResultsOf, okResult]
    | .error e =>
      simp [matchLoop, ht, ih, allResultsOf, okResult]

theorem match_norms_eq (tasks : List TaskOutcome) :
    match_norms tasks = matchedOf tasks := by
  simp [match_norms, matchLoop_eq, matchedOf]

/-- The progress events the streaming loop emits for the remaining tasks,
with `k` tasks already counted. -/
def progressFrom (total : Nat) : Nat → List TaskOutcome → List Event
  | _, [] => []
  | k, t :: rest => .progress (k + 1) total t.norm_id :: progressFrom total (k + 1) rest

theorem streamLoop_eq (total : Nat) (tasks : List TaskOutcome) :
    ∀ (k : Nat) (matched all : List NormResult),
      streamLoop total tasks k matched all =
        progressFrom total k tasks ++
        [Event.complete
          (sortByConfDesc (matched ++ (allResultsOf tasks).filter (fun r => r.applies)))
          (all ++ allResultsOf tasks)] := by
  induction tasks with
  | nil => intro k matched all; simp [streamLoop, allResultsOf, progressFrom]
  | cons t rest ih =>
    intro k matched all
    match ht : t.outcome with
    | .ok r =>
      by_cases hr : r.applies <;>
        simp [streamLoop, ht, hr, ih, allResultsOf, okResult, progressFrom]
    | .error e =>
      simp [streamLoop, ht, ih, allResultsOf, okResult, progressFrom]

theorem progressFrom_eq_zipWith (total : Nat) (tasks : List TaskOutcome) :
    ∀ k : Nat,
      progressFrom total k tasks =
        List.zipWith (fun i t => Event.progress (k + i + 1) total t.norm_id)
          (List.range tasks.length) tasks := by
  induction tasks with
  | nil => intro k; simp [progressFrom]
  | cons t rest ih =>
    intro k
    have harith : ∀ i : Nat, k + 1 + i + 1 = k + (i + 1) + 1 := fun i => by omega
    simp only [progressFrom, ih (k + 1), List.length_cons, List.range_succ_eq_map,
      List.zipWith_cons_cons, List.zipWith_map_left, Function.comp,
      Nat.succ_eq_add_one, Nat.add_zero, harith]

theorem match_norms_streaming_eq (tasks : List TaskOutcome) :
    match_norms_streaming tasks =
      List.zipWith (fun i t => Event.progress (i + 1) tasks.length t.norm_id)
        (List.range tasks.length) tasks ++
      [Event.complete (matchedOf tasks) (allResultsOf tasks)] := by
  have h := streamLoop_eq tasks.length tasks 0 [] []
  have hz := progressFrom_eq_zipWith tasks.length tasks 0
  simp only [Nat.zero_add] at hz
  simpa [match_norms_streaming, matchedOf, hz] using h

/-! ### Properties of the stable descending sort -/

theorem insertByConf_perm (x : NormResult) :
    ∀ l : List NormResult, (insertByConf x l).Perm (x :: l) := by
  intro l
  induction l with
  | nil => simp [insertByConf]
  | cons y ys ih =>
    by_cases h : y.confidence ≤ x.confidence
    · simp [insertByConf, h]
    · simp only [insertByConf, h, if_false]
      exact ((ih.cons y).trans (List.Perm.swap x y ys))

theorem sortByConfDesc_perm (l : List NormResult) : (sortByConfDesc l).Perm l := by
  induction l with
  | nil => simp [sortByConfDesc]
  | cons x xs ih =>
    exact (insertByConf_perm x (sortByConfDesc xs)).trans (ih.cons x)

theorem insertByConf_pairwise (x : NormResult) (l : List NormResult)
    (hl : l.Pairwise (fun a b => b.confidence ≤ a.confidence)) :
    (insertByConf x l).Pairwise (fun a b => b.confidence ≤ a.confidence) := by
  induction l with
  | nil => simp [insertByConf]
  | cons y ys ih =>
    rcases List.pairwise_cons.mp hl with ⟨hy, hys⟩
    by_cases h : y.confidence ≤ x.confidence
    · simp only [insertByConf, h, if_true]
      refine List.pairwise_cons.mpr ⟨?_, hl⟩
      intro b hb
      rcases List.mem_cons.mp hb with rfl | hb
      · exact h
      · exact le_trans (hy b hb) h
    · simp only [insertByConf, h, if_false]
      refine List.pairwise_cons.mpr ⟨?_, ih hys⟩
      intro b hb
      have hb' : b = x ∨ b ∈ ys :=
        List.mem_cons.mp ((List.Perm.mem_iff (insertByConf_perm x ys)).mp hb)
      rcases hb' with rfl | hb'
      · exact le_of_not_le h
      · exact hy b hb'

theorem sortByConfDesc_pairwise (l : List NormResult) :
    (sortByConfDesc l).Pairwise (fun a b => b.confidence ≤ a.confidence) := by
  induction l with
  | nil => simp [sortByConfDesc]
  | cons x xs ih => exact insertByConf_pairwise x (sortByConfDesc xs) ih

theorem insertByConf_filter_conf (x : NormResult) (c : Int) :
    ∀ l : List NormResult,
      (insertByConf x l).filter (fun r => r.confidence == c) =
        (x :: l).filter (fun r => r.confidence == c) := by
  intro l
  induction l with
  | nil => rfl
  | cons y ys ih =>
    by_cases h : y.confidence ≤ x.confidence
    · simp [insertByConf, h]
    · have hxy : x.confidence < y.confidence := lt_of_not_le h
      simp only [insertByConf, h, if_false]
      by_cases hyc : y.confidence = c
      · have hxc : ¬ x.confidence = c := by omega
        simp [List.filter_cons, hyc, hxc, ih, List.filter_cons]
      · simp [List.filter_cons, hyc, ih, List.filter_cons]

/-- Stability of the embedded sort: for every confidence value, the
equal-confidence elements appear in the sorted output in exactly their
original relative order. -/
theorem sortByConfDesc_stable (c : Int) (l : List NormResult) :
    (sortByConfDesc l).filter (fun r => r.confidence == c) =
      l.filter (fun r => r.confidence == c) := by
  induction l with
  | nil => rfl
  | cons x xs ih =>
    calc (sortByConfDesc (x :: xs)).filter (fun r => r.confidence == c)
        = (x :: sortByConfDesc xs).filter (fun r => r.confidence == c) :=
          insertByConf_filter_conf x c (sortByConfDesc xs)
      _ = (x :: xs).filter (fun r => r.confidence == c) := by
          simp only [List.filter_cons, ih]

/-! ## Package manager (src/services/package_manager.py)

The entitlement resolver and the usage recorder. Rows of the `user_packages`
table are modeled field by field; the external systems (Supabase queries,
Redis cache, the `package_usage` insert) are passed in as explicit values. -/

/-- A timestamp string field as consumed through `datetime.fromisoformat`
(an external library call): either a string that parses to an instant
(modeled as an integer on the time line) or one that makes `fromisoformat`
raise. -/
inductive IsoStr
  | parsed (t : Int)
  | unparseable (raw : String)
  deriving DecidableEq

/-- A `user_packages` row, restricted to the fields the package manager reads.
`Option.none` models a missing / `NULL` / falsy field (`dict.get` returning
`None`; for `trial_end` Python truthiness also treats `""` as absent).
`is_trial` is the truthiness of `package.get('is_trial')`. -/
structure Package where
  status : String
  package_type : String
  is_trial : Bool := false
  expires_at : Option IsoStr := Option.none
  trial_end : Option IsoStr := Option.none
  deriving DecidableEq

/-- The `databases` field of a `PACKAGES` entry: the literal string `'all'`
(mega bundle) or a list of database filenames. -/
inductive DbSpec
  | all
  | list (dbs : List String)
  deriving DecidableEq

/-- A `PACKAGES` config entry, restricted to the field the access-control code
reads (name, price, features, … are display-only). -/
structure PkgConfig where
  databases : DbSpec
  deriving DecidableEq

/-- The `PACKAGES` registry (`PACKAGES.get(package_type)`). -/
def PACKAGES : String → Option PkgConfig
  | "iso_box" => some { databases := .list ["norms_iso.json", "norms_iec.json"] }
  | "asia_box" => some { databases := .list ["norms_china.json", "norms_japan.json", "norms_india.json", "norms_uae_gcc.json"] }
  | "us_box" => some { databases := .list ["norms_us.json"] }
  | "industry_automotive" => some { databases := .list ["norms_industry_automotive.json"] }
  | "industry_medical" => some { databases := .list ["norms_industry_medical.json"] }
  | "mega_bundle" => some { databases := .all }
  | _ => Option.none

/-- `ALL_DATABASE_FILES`. -/
def ALL_DATABASE_FILES : List String :=
  ["norms.json", "norms_us.json", "norms_china.json", "norms_japan.json",
   "norms_iso.json", "norms_iec.json", "norms_uk.json", "norms_canada.json",
   "norms_australia.json", "norms_brazil.json", "norms_india.json",
   "norms_uae_gcc.json", "norms_eu_additional.json",
   "norms_industry_automotive.json", "norms_industry_medical.json",
   "norms_industry_electronics.json", "norms_industry_food.json",
   "norms_industry_construction.json", "norms_industry_energy.json"]

/-- `FREE_DATABASES`. -/
def FREE_DATABASES : List String := ["norms.json"]

/-- `PackageManager._is_package_accessible`, with the current instant `now`
made explicit. An `active` row is accessible when `expires_at` is missing,
when it parses to an instant later than `now`, or when parsing raises
(`except: return True`). A `trial` row is accessible only when `is_trial` is
truthy and `trial_end` parses to an instant later than `now` (a parse failure
falls through to `return False`). Every other status is inaccessible. -/
def isPackageAccessible (now : Int) (p : Package) : Bool :=
  if p.status = "active" then
    match p.expires_at with
    | Option.none => true
    | some (.parsed t) => decide (now < t)
    | some (.unparseable _) => true
  else if p.status = "trial" ∧ p.is_trial then
    match p.trial_end with
    | some (.parsed t) => decide (now < t)
    | some (.unparseable _) => false
    | Option.none => false
  else false

/-- `PackageManager.get_user_packages` for one `(user_id, status)` pair, with
its external observations made explicit: `cache` is the Redis read
(`some rows` on a cache hit; `none` when Redis is absent, misses, or its read
raised — all three fall through to the durable query), and `query` is the
Supabase query outcome (rows, or the exception it raised). A failed query is
caught and yields `[]`; the function never raises. -/
def get_user_packages (cache : Option (List Package))
    (query : Except String (List Package)) : List Package :=
  match cache with
  | some pkgs => pkgs
  | Option.none =>
    match query with
    | .ok pkgs => pkgs
    | .error _ => []

/-- Python `set.update`: add each element of `ds` not already present. -/
def setUpdate (acc : List String) (ds : List String) : List String :=
  ds.foldl (fun a d => if d ∈ a then a else a ++ [d]) acc

/-- The package loop of `get_allowed_databases` over `active + trial` rows,
with accumulator `databases`. Inaccessible rows and unknown package types are
skipped; a config whose `databases` field is `'all'` short-circuits to
`ALL_DATABASE_FILES`; otherwise the config's databases are unioned in.
(The Python function finally returns `sorted(list(databases))`; sorting only
permutes the set, and the claims about this function are membership claims,
so the accumulated set-list itself is returned here.) -/
def gadLoop (now : Int) : List Package → List String → List String
  | [], databases => databases
  | pkg :: rest, databases =>
    if ¬ isPackageAccessible now pkg then gadLoop now rest databases
    else
      match PACKAGES pkg.package_type with
      | Option.none => gadLoop now rest databases
      | some cfg =>
        match cfg.databases with
        | .all => ALL_DATABASE_FILES
        | .list ds => gadLoop now rest (setUpdate databases ds)

/-- `PackageManager.get_allowed_databases`, given the rows returned for
status `'active'` and status `'trial'`: start from `set(FREE_DATABASES)` and
run the package loop over `active_packages + trial_packages`. -/
def get_allowed_databases (now : Int) (activePkgs trialPkgs : List Package) :
    List String :=
  gadLoop now (activePkgs ++ trialPkgs) FREE_DATABASES

/-- `get_allowed_databases` composed with the two `get_user_packages` calls it
makes, with their external observations explicit. -/
def get_allowed_databases_io (now : Int)
    (cacheActive cacheTrial : Option (List Package))
    (queryActive queryTrial : Except String (List Package)) : List String :=
  get_allowed_databases now
    (get_user_packages cacheActive queryActive)
    (get_user_packages cacheTrial queryTrial)

/-- The package loop of `PackageManager._get_package_for_database`: the first
row (in `active + trial` order) whose known config either is the `'all'`
bundle or lists the database wins; accessibility is not consulted. -/
def gpfdLoop (db : String) : List Package → Option String
  | [] => Option.none
  | pkg :: rest =>
    match PACKAGES pkg.package_type with
    | Option.none => gpfdLoop db rest
    | some cfg =>
      match cfg.databases with
      | .all => some pkg.package_type
      | .list ds => if db ∈ ds then some pkg.package_type else gpfdLoop db rest

/-- `PackageManager._get_package_for_database`, given the rows returned for
status `'active'` and status `'trial'`: free databases belong to no package,
otherwise the first covering package wins. -/
def get_package_for_database (db : String) (activePkgs trialPkgs : List Package) :
    Option String :=
  if db ∈ FREE_DATABASES then Option.none
  else gpfdLoop db (activePkgs ++ trialPkgs)

/-- A `package_usage` row as built by `track_usage` (the fields that carry
attribution; `user_id`, `workspace_id` and `accessed_at` are identifiers and
a wall-clock timestamp, not modeled). -/
structure UsageData where
  package_type : Option String
  database_name : String
  operation : String
  deriving DecidableEq

/-- The row `track_usage` builds for the access. -/
def usageDataFor (db op : String) (activePkgs trialPkgs : List Package) : UsageData :=
  { package_type := get_package_for_database db activePkgs trialPkgs,
    database_name := db, operation := op }

/-- `PackageManager.track_usage`, with the outcome of the `package_usage`
insert made explicit. Returns the row that was durably recorded, or `none`
when the insert raised: the exception is caught and logged
(`# Don't fail the main operation if tracking fails`), never re-raised. -/
def track_usage (db op : String) (activePkgs trialPkgs : List Package)
    (insert : UsageData → Except String Unit) : Option UsageData :=
  let u := usageDataFor db op activePkgs trialPkgs
  match insert u with
  | .ok _ => some u
  | .error _ => Option.none

/-! ### Helper lemmas for the entitlement resolver -/

/-- The `databases` field of the config registered for a row's package type. -/
def pkgDbSpec (p : Package) : Option DbSpec :=
  (PACKAGES p.package_type).map (fun c => c.databases)

/-- A row whose known config covers the database: the `'all'` bundle covers
everything, a database list covers its members. -/
def covers (db : String) (p : Package) : Bool :=
  match PACKAGES p.package_type with
  | Option.none => false
  | some cfg =>
    match cfg.databases with
    | .all => true
    | .list ds => decide (db ∈ ds)

theorem mem_setUpdate (ds : List String) :
    ∀ (acc : List String) (db : String),
      db ∈ setUpdate acc ds ↔ db ∈ acc ∨ db ∈ ds := by
  induction ds with
  | nil => intro acc db; simp [setUpdate]
  | cons d t ih =>
    intro acc db
    by_cases hd : d ∈ acc
    · simp only [setUpdate, List.foldl_cons, if_pos hd]
      rw [show List.foldl (fun a d => if d ∈ a then a else a ++ [d]) acc t = setUpdate acc t from rfl,
        ih acc db]
      constructor
      · rintro (h | h)
        · exact Or.inl h
        · exact Or.inr (List.mem_cons_of_mem d h)
      · rintro (h | h)
        · exact Or.inl h
        · rcases List.mem_cons.mp h with rfl | h
          · exact Or.inl hd
          · exact Or.inr h
    · simp only [setUpdate, List.foldl_cons, if_neg hd]
      rw [show List.foldl (fun a d => if d ∈ a then a else a ++ [d]) (acc ++ [d]) t =
            setUpdate (acc ++ [d]) t from rfl,
        ih (acc ++ [d]) db]
      simp only [List.mem_append, List.mem_singleton, List.mem_cons]
      tauto

theorem gadLoop_cons_skip (now : Int) (pkg : Package) (rest : List Package)
    (acc : List String) (h : isPackageAccessible now pkg = false) :
    gadLoop now (pkg :: rest) acc = gadLoop now rest acc := by
  simp [gadLoop, h]

theorem gadLoop_cons_unknown (now : Int) (pkg : Package) (rest : List Package)
    (acc : List String) (h1 : isPackageAccessible now pkg = true)
    (h2 : PACKAGES pkg.package_type = Option.none) :
    gadLoop now (pkg :: rest) acc = gadLoop now rest acc := by
  simp [gadLoop, h1, h2]

theorem gadLoop_cons_all (now : Int) (pkg : Package) (rest : List Package)
    (acc : List String) (cfg : PkgConfig) (h1 : isPackageAccessible now pkg = true)
    (h2 : PACKAGES pkg.package_type = some cfg) (h3 : cfg.databases = DbSpec.all) :
    gadLoop now (pkg :: rest) acc = ALL_DATABASE_FILES := by
  simp [gadLoop, h1, h2, h3]

theorem gadLoop_cons_list (now : Int) (pkg : Package) (rest : List Package)
    (acc : List String) (cfg : PkgConfig) (ds : List String)
    (h1 : isPackageAccessible now pkg = true)
    (h2 : PACKAGES pkg.package_type = some cfg) (h3 : cfg.databases = DbSpec.list ds) :
    gadLoop now (pkg :: rest) acc = gadLoop now rest (setUpdate acc ds) := by
  simp [gadLoop, h1, h2, h3]

theorem gadLoop_all (now : Int) (pkgs : List Package) :
    ∀ acc : List String,
      (∃ p ∈ pkgs, isPackageAccessible now p = true ∧ pkgDbSpec p = some DbSpec.all) →
      gadLoop now pkgs acc = ALL_DATABASE_FILES := by
  induction pkgs with
  | nil => intro acc h; simp at h
  | cons pkg rest ih =>
    intro acc h
    cases hacc : isPackageAccessible now pkg with
    | true =>
      match hcfg : PACKAGES pkg.package_type with
      | Option.none =>
        have hr : ∃ p ∈ rest, isPackageAccessible now p = true ∧ pkgDbSpec p = some DbSpec.all := by
          rcases h with ⟨p, hp, hpa, hps⟩
          rcases List.mem_cons.mp hp with rfl | hp
          · simp [pkgDbSpec, hcfg] at hps
          · exact ⟨p, hp, hpa, hps⟩
        rw [gadLoop_cons_unknown now pkg rest acc hacc hcfg, ih _ hr]
      | some cfg =>
        match hdb : cfg.databases with
        | .all => exact gadLoop_cons_all now pkg rest acc cfg hacc hcfg hdb
        | .list ds =>
          have hr : ∃ p ∈ rest, isPackageAccessible now p = true ∧ pkgDbSpec p = some DbSpec.all := by
            rcases h with ⟨p, hp, hpa, hps⟩
            rcases List.mem_cons.mp hp with rfl | hp
            · rw [pkgDbSpec, hcfg] at hps
              simp [hdb] at hps
            · exact ⟨p, hp, hpa, hps⟩
          rw [gadLoop_cons_list now pkg rest acc cfg ds hacc hcfg hdb, ih _ hr]
    | false =>
      have hr : ∃ p ∈ rest, isPackageAccessible now p = true ∧ pkgDbSpec p = some DbSpec.all := by
        rcases h with ⟨p, hp, hpa, hps⟩
        rcases List.mem_cons.mp hp with rfl | hp
        · rw [hacc] at hpa; exact absurd hpa (by simp)
        · exact ⟨p, hp, hpa, hps⟩
      rw [gadLoop_cons_skip now pkg rest acc hacc, ih _ hr]

theorem gadLoop_mem (now : Int) (pkgs : List Package) :
    ∀ acc : List String,
      (∀ p ∈ pkgs, ¬(isPackageAccessible now p = true ∧ pkgDbSpec p = some DbSpec.all)) →
      ∀ db : String,
        db ∈ gadLoop now pkgs acc ↔
          db ∈ acc ∨ ∃ p ∈ pkgs, isPackageAccessible now p = true ∧
            ∃ ds, pkgDbSpec p = some (DbSpec.list ds) ∧ db ∈ ds := by
  induction pkgs with
  | nil => intro acc h db; simp [gadLoop]
  | cons pkg rest ih =>
    intro acc h db
    have hrest : ∀ p ∈ rest, ¬(isPackageAccessible now p = true ∧ pkgDbSpec p = some DbSpec.all) :=
      fun p hp => h p (List.mem_cons_of_mem pkg hp)
    cases hacc : isPackageAccessible now pkg with
    | true =>
      match hcfg : PACKAGES pkg.package_type with
      | Option.none =>
        rw [gadLoop_cons_unknown now pkg rest acc hacc hcfg, ih acc hrest db]
        constructor
        · rintro (hd | ⟨p, hp, hpa, hds⟩)
          · exact Or.inl hd
          · exact Or.inr ⟨p, List.mem_cons_of_mem pkg hp, hpa, hds⟩
        · rintro (hd | ⟨p, hp, hpa, ds, hds, hmem⟩)
          · exact Or.inl hd
          · rcases List.mem_cons.mp hp with rfl | hp
            · simp [pkgDbSpec, hcfg] at hds
            · exact Or.inr ⟨p, hp, hpa, ds, hds, hmem⟩
      | some cfg =>
        match hdb : cfg.databases with
        | .all =>
          exact absurd ⟨hacc, by simp [pkgDbSpec, hcfg, hdb]⟩
            (h pkg (List.mem_cons_self pkg rest))
        | .list ds0 =>
          rw [gadLoop_cons_list now pkg rest acc cfg ds0 hacc hcfg hdb,
            ih (setUpdate acc ds0) hrest db, mem_setUpdate ds0 acc db]
          constructor
          · rintro ((hd | hd) | ⟨p, hp, hpa, hds⟩)
            · exact Or.inl hd
            · exact Or.inr ⟨pkg, List.mem_cons_self pkg rest, hacc, ds0,
                by simp [pkgDbSpec, hcfg, hdb], hd⟩
            · exact Or.inr ⟨p, List.mem_cons_of_mem pkg hp, hpa, hds⟩
          · rintro (hd | ⟨p, hp, hpa, ds, hds, hmem⟩)
            · exact Or.inl (Or.inl hd)
            · rcases List.mem_cons.mp hp with rfl | hp
              · simp [pkgDbSpec, hcfg, hdb] at hds
                subst hds
                exact Or.inl (Or.inr hmem)
              · exact Or.inr ⟨p, hp, hpa, ds, hds, hmem⟩
    | false =>
      rw [gadLoop_cons_skip now pkg rest acc hacc, ih acc hrest db]
      constructor
      · rintro (hd | ⟨p, hp, hpa, hds⟩)
        · exact Or.inl hd
        · exact Or.inr ⟨p, List.mem_cons_of_mem pkg hp, hpa, hds⟩
      · rintro (hd | ⟨p, hp, hpa, ds, hds, hmem⟩)
        · exact Or.inl hd
        · rcases List.mem_cons.mp hp with rfl | hp
          · rw [hacc] at hpa; exact absurd hpa (by simp)
          · exact Or.inr ⟨p, hp, hpa, ds, hds, hmem⟩

theorem reasoningStep_confidence (st : ParseState) (line : String) :
    (reasoningStep st line).confidence = st.confidence := by
  unfold reasoningStep
  split
  · split
    · rfl
    · rfl
  · split
    · rfl
    · rfl

theorem confStep_confidence_nonneg (st : ParseState) (line : String)
    (h : 0 ≤ st.confidence) : 0 ≤ (confStep st line).confidence := by
  unfold confStep
  split
  · split
    · exact Int.ofNat_nonneg _
    · norm_num
  · exact h

theorem confStep_no_marker (st : ParseState) (line : String)
    (h : pyContains "CONFIDENCE:" (pyUpper line) = false) : confStep st line = st := by
  simp [confStep, h]

theorem confStep_unparseable (st : ParseState) (line : String)
    (h : pyIntOfDigits line = Option.none) : (confStep st line).confidence = 50 ∨
      (confStep st line).confidence = st.confidence := by
  unfold confStep
  split
  · rw [h]
    exact Or.inl rfl
  · exact Or.inr rfl

theorem foldl_parseLine_nonneg (lines : List String) :
    ∀ st : ParseState, 0 ≤ st.confidence → 0 ≤ (lines.foldl parseLine st).confidence := by
  induction lines with
  | nil => intro st h; exact h
  | cons l t ih =>
    intro st h
    refine ih (parseLine st l) ?_
    rw [parseLine, reasoningStep_confidence]
    exact confStep_confidence_nonneg st l h

/-- A line contains no parseable confidence value: either it lacks the
`CONFIDENCE:` marker entirely, or its digit parse raises
(`int('')` on a digit-free marker line, caught by `except: confidence = 50`). -/
def noParseableConfidence (l : String) : Prop :=
  pyContains "CONFIDENCE:" (pyUpper l) = false ∨ pyIntOfDigits l = Option.none

instance (l : String) : Decidable (noParseableConfidence l) := by
  unfold noParseableConfidence
  infer_instance

theorem foldl_parseLine_default (lines : List String) :
    ∀ st : ParseState, st.confidence = 50 →
      (∀ l ∈ lines, noParseableConfidence l) →
      (lines.foldl parseLine st).confidence = 50 := by
  induction lines with
  | nil => intro st h50 _; exact h50
  | cons l t ih =>
    intro st h50 h
    have h1 : (parseLine st l).confidence = 50 := by
      rw [parseLine, reasoningStep_confidence]
      rcases h l (List.mem_cons_self l t) with hm | hp
      · rw [confStep_no_marker st l hm]
        exact h50
      · rcases confStep_unparseable st l hp with h2 | h2
        · exact h2
        · rw [h2]
          exact h50
    exact ih (parseLine st l) h1 (fun x hx => h x (List.mem_cons_of_mem l hx))

theorem gpfdLoop_eq_find (db : String) (pkgs : List Package) :
    gpfdLoop db pkgs = (pkgs.find? (covers db)).map (fun p => p.package_type) := by
  induction pkgs with
  | nil => rfl
  | cons pkg rest ih =>
    match hcfg : PACKAGES pkg.package_type with
    | Option.none =>
      have hc : covers db pkg = false := by simp [covers, hcfg]
      simp [gpfdLoop, hcfg, List.find?_cons, hc, ih]
    | some cfg =>
      match hdb : cfg.databases with
      | .all =>
        have hc : covers db pkg = true := by simp [covers, hcfg, hdb]
        simp [gpfdLoop, hcfg, hdb, List.find?_cons, hc]
      | .list ds =>
        by_cases hmem : db ∈ ds
        · have hc : covers db pkg = true := by simp [covers, hcfg, hdb, hmem]
          simp [gpfdLoop, hcfg, hdb, hmem, List.find?_cons, hc]
        · have hc : covers db pkg = false := by simp [covers, hcfg, hdb, hmem]
          simp [gpfdLoop, hcfg, hdb, hmem, List.find?_cons, hc, ih]

theorem allResultsOf_length_of_ok (tasks : List TaskOutcome)
    (h : ∀ t ∈ tasks, ∃ r, t.outcome = Except.ok r) :
    (allResultsOf tasks).length = tasks.length := by
  induction tasks with
  | nil => rfl
  | cons t rest ih =>
    rcases h t (List.mem_cons_self t rest) with ⟨r, hr⟩
    have hrest := ih (fun x hx => h x (List.mem_cons_of_mem t hx))
    simp [allResultsOf, List.filterMap_cons, okResult, hr] at hrest ⊢
    exact hrest

/-! ## Concrete fixtures used by counterexamples and witnesses -/

/-- A concrete input rule. -/
def normA : Norm :=
  { id := "EN-123", name := "Example Norm", applies_to := "mains-powered devices",
    description := "safety requirements" }

/-- A completed classification whose verdict is `applies = false`. -/
def resultNo : NormResult :=
  { norm_id := "EN-123", norm_name := "Example Norm", applies := false,
    confidence := 80, reasoning := "out of scope", url := "" }

/-- A task that completed without raising, with a non-applying verdict. -/
def taskNo : TaskOutcome := { norm_id := "EN-123", outcome := .ok resultNo }

/-- A task whose worker raised (e.g. a `KeyError` on a malformed rule record),
so `future.result()` re-raises. -/
def taskBoom : TaskOutcome := { norm_id := "EN-999", outcome := .error "KeyError" }

/-- An active mega-bundle row (`databases = 'all'`). -/
def megaPkg : Package := { status := "active", package_type := "mega_bundle" }

/-- An active US-box row (`databases = ['norms_us.json']`). -/
def usPkg : Package := { status := "active", package_type := "us_box" }

/-- A row with status `'trial'`, a future `trial_end`, but a falsy `is_trial`. -/
def trialNoFlag : Package :=
  { status := "trial", package_type := "us_box", is_trial := false,
    trial_end := some (.parsed 100) }

/-- An active row whose `expires_at` string makes `fromisoformat` raise. -/
def badExpiry : Package :=
  { status := "active", package_type := "us_box",
    expires_at := some (.unparseable "not-a-timestamp") }

/-! ## Claims -/

/-- C1, counterexample. The claim says both modes return the full
`all_results` list (one `EvaluationResult` per input rule, results with
`applies = false` included, even when a task fails). It is false at these
concrete inputs: the plain mode drops the (sole) non-applying result and
returns `[]` for a one-rule batch, and the streaming mode's terminal event
carries an empty `all_results` for a one-rule batch whose task raised. -/
theorem C1_counterexample :
    ([taskNo].length = 1 ∧ match_norms [taskNo] = []) ∧
    ([taskBoom].length = 1 ∧
      match_norms_streaming [taskBoom] =
        [Event.progress 1 1 "EN-999", Event.complete [] []]) := by
  exact ⟨⟨rfl, rfl⟩, ⟨rfl, rfl⟩⟩

/-- C1 (amended): in streaming mode, `all_results` contains exactly one
`EvaluationResult` for every task that completes without raising — results
with `applies = false` included — and the full list is returned to the caller
in the terminal complete event; so when no task raises,
`len(all_results) == len(input_rules)`. (A task that raises contributes only
its progress event, and the plain mode returns only the applying results.) -/
theorem C1_streaming_all_results_complete (tasks : List TaskOutcome)
    (h : ∀ t ∈ tasks, ∃ r, t.outcome = Except.ok r) :
    match_norms_streaming tasks =
      List.zipWith (fun i t => Event.progress (i + 1) tasks.length t.norm_id)
        (List.range tasks.length) tasks ++
      [Event.complete (matchedOf tasks) (allResultsOf tasks)] ∧
    (allResultsOf tasks).length = tasks.length :=
  ⟨match_norms_streaming_eq tasks, allResultsOf_length_of_ok tasks h⟩

/-- C1 witness: the amended claim at a concrete one-task batch whose result
does not apply — the result is still counted and returned in `all_results`. -/
theorem C1_witness :
    (match_norms_streaming [taskNo] =
      List.zipWith (fun i t => Event.progress (i + 1) [taskNo].length t.norm_id)
        (List.range [taskNo].length) [taskNo] ++
      [Event.complete (matchedOf [taskNo]) (allResultsOf [taskNo])] ∧
    (allResultsOf [taskNo]).length = [taskNo].length) :=
  C1_streaming_all_results_complete [taskNo]
    (by
      intro t ht
      rcases List.mem_singleton.mp ht with rfl
      exact ⟨resultNo, rfl⟩)

/-- C2: allowed-partition resolution returns the free set unioned with the
granted partitions of every accessible active/trial row; any accessible row
whose config grants `'all'` makes it return the full catalog; and with no
rows at all it returns exactly the free set. -/
theorem C2_allowed_partition_resolution (now : Int) (activePkgs trialPkgs : List Package) :
    ((∃ p ∈ activePkgs ++ trialPkgs,
        isPackageAccessible now p = true ∧ pkgDbSpec p = some DbSpec.all) →
      get_allowed_databases now activePkgs trialPkgs = ALL_DATABASE_FILES) ∧
    ((∀ p ∈ activePkgs ++ trialPkgs,
        ¬(isPackageAccessible now p = true ∧ pkgDbSpec p = some DbSpec.all)) →
      ∀ db : String,
        db ∈ get_allowed_databases now activePkgs trialPkgs ↔
          db ∈ FREE_DATABASES ∨
          ∃ p ∈ activePkgs ++ trialPkgs, isPackageAccessible now p = true ∧
            ∃ ds, pkgDbSpec p = some (DbSpec.list ds) ∧ db ∈ ds) ∧
    get_allowed_databases now [] [] = FREE_DATABASES :=
  ⟨fun h => gadLoop_all now (activePkgs ++ trialPkgs) FREE_DATABASES h,
   fun h db => gadLoop_mem now (activePkgs ++ trialPkgs) FREE_DATABASES h db,
   rfl⟩

/-- C2 witness: an accessible mega-bundle row resolves to the full catalog. -/
theorem C2_witness :
    get_allowed_databases 0 [megaPkg] [] = ALL_DATABASE_FILES :=
  (C2_allowed_partition_resolution 0 [megaPkg] []).1
    ⟨megaPkg, by decide, by decide, by decide⟩

/-- C3, counterexample. The claim says a `'trial'` row is accessible exactly
when `trial_end > now`; but the code additionally requires the row's
`is_trial` flag to be truthy. This row has status `'trial'` and
`trial_end > now`, yet is not accessible. -/
theorem C3_counterexample :
    trialNoFlag.status = "trial" ∧
    trialNoFlag.trial_end = some (IsoStr.parsed 100) ∧ (0 : Int) < 100 ∧
    isPackageAccessible 0 trialNoFlag = false :=
  ⟨rfl, rfl, by decide, by decide⟩

/-- C3 (amended): accessibility holds for status `'active'` exactly when
`expires_at` is null, unparseable, or parses to an instant after `now`; for
status `'trial'` exactly when the row's `is_trial` flag is truthy and
`trial_end` parses to an instant after `now`; and for no other row. -/
theorem C3_accessibility_characterization (now : Int) (p : Package) :
    isPackageAccessible now p = true ↔
      (p.status = "active" ∧
        (p.expires_at = Option.none ∨
         (∃ s, p.expires_at = some (IsoStr.unparseable s)) ∨
         (∃ t, p.expires_at = some (IsoStr.parsed t) ∧ now < t))) ∨
      (p.status = "trial" ∧ p.is_trial = true ∧
        ∃ t, p.trial_end = some (IsoStr.parsed t) ∧ now < t) := by
  have hne : ¬("trial" = "active") := by decide
  by_cases hA : p.status = "active"
  · have hT : ¬(p.status = "trial") := fun h => hne (h.symm.trans hA)
    match he : p.expires_at with
    | Option.none => simp [isPackageAccessible, hA, hT, he]
    | some (.parsed t) => simp [isPackageAccessible, hA, hT, he]
    | some (.unparseable s) => simp [isPackageAccessible, hA, hT, he]
  · by_cases hTr : p.status = "trial" ∧ p.is_trial = true
    · match he : p.trial_end with
      | Option.none => simp [isPackageAccessible, hA, hTr.1, hTr.2, he]
      | some (.parsed t) => simp [isPackageAccessible, hA, hTr.1, hTr.2, he]
      | some (.unparseable s) => simp [isPackageAccessible, hA, hTr.1, hTr.2, he]
    · have hsplit : ¬(p.status = "trial") ∨ ¬(p.is_trial = true) := by tauto
      rcases hsplit with hT | hF
      · simp [isPackageAccessible, hA, hT]
      · simp [isPackageAccessible, hA, hF]

/-- C4: when the durable entitlement store queries raise (and Redis does not
serve a cached copy), allowed-partition resolution does not raise and returns
exactly the free partition set. -/
theorem C4_store_failure_fails_closed (now : Int) (e1 e2 : String) :
    get_allowed_databases_io now Option.none Option.none
      (Except.error e1) (Except.error e2) = FREE_DATABASES := rfl

/-- C5: whenever the reasoning-service call fails (missing key, timeout,
transport exception, non-200 status, malformed 200 body), `check_norm_applies`
returns a result with `applies = false`, `confidence = 0`, and a reasoning
string carrying the cause — it never propagates an exception (it is a total
function of the failure). -/
theorem C5_classifier_fail_open (key : Option String) (outcome : HttpOutcome)
    (e : String) (norm : Norm)
    (hfail : call_openrouter key outcome = CallResult.err e) :
    check_norm_applies (call_openrouter key outcome) norm =
      { norm_id := norm.id, norm_name := norm.name, applies := false,
        confidence := 0, reasoning := "Error: " ++ e, url := "" } := by
  rw [hfail]
  rfl

/-- C5 witness: concrete failed call (no API key configured). -/
theorem C5_witness :
    check_norm_applies (call_openrouter Option.none HttpOutcome.timeout) normA =
      { norm_id := normA.id, norm_name := normA.name, applies := false,
        confidence := 0,
        reasoning := "Error: " ++ "OpenRouter API key not configured", url := "" } :=
  C5_classifier_fail_open Option.none HttpOutcome.timeout
    "OpenRouter API key not configured" normA rfl

/-- C6: for every streaming batch, the emitted event sequence is exactly one
progress event per completed task — with `completed` values `1, 2, …, n` in
completion order and the task's rule id — followed by exactly one terminal
complete event carrying `matched_results` and `all_results` (also for tasks
that raised: the counterexample tasks of C1 appear in the progress list). -/
theorem C6_streaming_event_sequence (tasks : List TaskOutcome) :
    match_norms_streaming tasks =
      List.zipWith (fun i t => Event.progress (i + 1) tasks.length t.norm_id)
        (List.range tasks.length) tasks ++
      [Event.complete (matchedOf tasks) (allResultsOf tasks)] ∧
    (List.zipWith (fun i t => Event.progress (i + 1) tasks.length t.norm_id)
        (List.range tasks.length) tasks).length = tasks.length :=
  ⟨match_norms_streaming_eq tasks, by simp⟩

/-- C7: in both modes the matched results are exactly the applying subset of
`all_results`, sorted by confidence non-increasing by a stable sort: the last
streaming event carries `(matchedOf, allResultsOf)`, the plain mode returns
`matchedOf`, and `matchedOf` is a permutation of the applying subset, is
pairwise non-increasing in confidence, and preserves the relative completion
order of every equal-confidence group. -/
theorem C7_matched_is_sorted_applying_subset (tasks : List TaskOutcome) :
    (match_norms_streaming tasks).getLast? =
      some (Event.complete (matchedOf tasks) (allResultsOf tasks)) ∧
    match_norms tasks = matchedOf tasks ∧
    (matchedOf tasks).Perm ((allResultsOf tasks).filter (fun r => r.applies)) ∧
    (matchedOf tasks).Pairwise (fun a b => b.confidence ≤ a.confidence) ∧
    ∀ c : Int,
      (matchedOf tasks).filter (fun r => r.confidence == c) =
        ((allResultsOf tasks).filter (fun r => r.applies)).filter
          (fun r => r.confidence == c) := by
  refine ⟨?_, match_norms_eq tasks, sortByConfDesc_perm _, sortByConfDesc_pairwise _,
    fun c => sortByConfDesc_stable c _⟩
  rw [match_norms_streaming_eq]
  exact List.getLast?_concat _

/-- C8, counterexample. The claim says `0 ≤ confidence ≤ 100` for every
parsed result; but the parser concatenates every digit character of the
CONFIDENCE line, so a response announcing a confidence of 150 parses to
`confidence = 150 > 100`. -/
theorem C8_counterexample :
    (check_norm_applies
      (.ok "APPLIES: yes\nCONFIDENCE: 150\nREASONING: service overclaimed")
      normA).confidence = 150 ∧
    ¬((check_norm_applies
      (.ok "APPLIES: yes\nCONFIDENCE: 150\nREASONING: service overclaimed")
      normA).confidence ≤ 100) := by
  exact ⟨by decide, by decide⟩

/-- C8 (amended): confidence is always non-negative; it is 50 whenever the
response contains no parseable CONFIDENCE line — every line either lacks the
`CONFIDENCE:` marker or has no digit characters, so its parse raises and the
`except:` assigns the default — and 0 whenever the service call failed; but it
has no upper bound of 100 (the parser reads the concatenation of all digit
characters of the marker line, see the counterexample). -/
theorem C8_confidence_bounds :
    (∀ (cr : CallResult) (norm : Norm), 0 ≤ (check_norm_applies cr norm).confidence) ∧
    (∀ (e : String) (norm : Norm),
      (check_norm_applies (CallResult.err e) norm).confidence = 0) ∧
    (∀ (content : String) (norm : Norm),
      (∀ l ∈ pyLines (pyStrip content), noParseableConfidence l) →
      (check_norm_applies (CallResult.ok content) norm).confidence = 50) := by
  refine ⟨?_, fun e norm => rfl, ?_⟩
  · intro cr norm
    match cr with
    | .err e => simp [check_norm_applies]
    | .ok content =>
      simp only [check_norm_applies]
      exact foldl_parseLine_nonneg _ initParseState (by norm_num [initParseState])
  · intro content norm h
    simp only [check_norm_applies]
    exact foldl_parseLine_default _ initParseState rfl h

/-- C8 witness: a response whose CONFIDENCE line carries no digits (its parse
raises, and the except-branch assigns the default) yields confidence 50. -/
theorem C8_witness :
    (check_norm_applies
      (CallResult.ok "APPLIES: yes\nCONFIDENCE: unknown\nREASONING: unsure")
      normA).confidence = 50 :=
  C8_confidence_bounds.2.2 "APPLIES: yes\nCONFIDENCE: unknown\nREASONING: unsure"
    normA (by decide)

/-- C9, counterexample. The claim says a paid partition is attributed to the
specific covering package in preference to an `ALL` bundle when the tenant
holds both. But the loop returns the first covering row in list order: with
the mega bundle listed before the US box, `norms_us.json` is attributed to
`mega_bundle` even though the specific covering package `us_box` is held. -/
theorem C9_counterexample :
    get_package_for_database "norms_us.json" [megaPkg, usPkg] [] = some "mega_bundle" ∧
    PACKAGES usPkg.package_type = some { databases := DbSpec.list ["norms_us.json"] } ∧
    isPackageAccessible 0 usPkg = true ∧
    ("mega_bundle" : String) ≠ "us_box" :=
  ⟨by decide, rfl, by decide, by decide⟩

/-- C9 (amended): a free partition is attributed to no package; a paid
partition is attributed to the first row in `active + trial` list order whose
config covers it (an `ALL` bundle covers every partition), regardless of
whether a specific covering package appears later; and recording failures are
swallowed — `track_usage` returns without raising, recording nothing, when
the insert raises, and records the attributed row when it succeeds. -/
theorem C9_usage_attribution (db op : String) (activePkgs trialPkgs : List Package)
    (ins : UsageData → Except String Unit) :
    (db ∈ FREE_DATABASES →
      get_package_for_database db activePkgs trialPkgs = Option.none) ∧
    (db ∉ FREE_DATABASES →
      get_package_for_database db activePkgs trialPkgs =
        ((activePkgs ++ trialPkgs).find? (covers db)).map (fun p => p.package_type)) ∧
    (∀ e, ins (usageDataFor db op activePkgs trialPkgs) = Except.error e →
      track_usage db op activePkgs trialPkgs ins = Option.none) ∧
    (ins (usageDataFor db op activePkgs trialPkgs) = Except.ok () →
      track_usage db op activePkgs trialPkgs ins =
        some (usageDataFor db op activePkgs trialPkgs)) := by
  refine ⟨?_, ?_, ?_, ?_⟩
  · intro h
    simp [get_package_for_database, h]
  · intro h
    simp [get_package_for_database, h, gpfdLoop_eq_find]
  · intro e h
    simp [track_usage, h]
  · intro h
    simp [track_usage, h]

/-- C9 witness: the amended attribution at a concrete tenant holding only the
US box, recorded with a succeeding insert. -/
theorem C9_witness :
    get_package_for_database "norms_us.json" [usPkg] [] =
      (([usPkg] ++ []).find? (covers "norms_us.json")).map
        (fun p : Package => p.package_type) :=
  (C9_usage_attribution "norms_us.json" "analysis" [usPkg] []
    (fun _ => Except.ok ())).2.1 (by decide)

/-- C10: an `'active'` row whose non-null `expires_at` string cannot be
parsed (`fromisoformat` raises) is accessible — the `except: return True`
fails open rather than treating the row as expired. -/
theorem C10_unparseable_expiry_fails_open (now : Int) (p : Package) (s : String)
    (hstatus : p.status = "active")
    (hexp : p.expires_at = some (IsoStr.unparseable s)) :
    isPackageAccessible now p = true := by
  simp [isPackageAccessible, hstatus, hexp]

/-- C10 witness: a concrete active row with a malformed expiry string. -/
theorem C10_witness : isPackageAccessible 0 badExpiry = true :=
  C10_unparseable_expiry_fails_open 0 badExpiry "not-a-timestamp" rfl rfl

end NormScout
